import Mathlib

/-!
Verification of the `ooicgsn_glider_dvl` glider data-preparation pipeline.

The Python modules `profiles.py` and `merge.py` are shallowly embedded here:
times, depths and coordinates become rationals, datasets become lists, and
numpy / pandas / xarray operations become explicit list functions mirroring
the source line by line.
-/

namespace GliderDVL

/-! ## Embedding of `profiles.py` -/

/-- A glider ADCP dataset, reduced to the two channels `identify_profiles`
reads: the `time` coordinate (as unix seconds, already strictly increasing
for a well-formed dataset) and the `depth_from_pressure` channel. -/
structure DepthDS where
  time : List ℚ
  depth : List ℚ
deriving Repr, DecidableEq

/-- `np.abs` on one value, written with an explicit sign test so that the
kernel can evaluate it. -/
def ratAbs (x : ℚ) : ℚ := if x < 0 then -x else x

/-- `np.abs(x.diff(dim='time'))`: successive absolute differences. -/
def absDiff : List ℚ → List ℚ
  | [] => []
  | [_] => []
  | a :: b :: rest => ratAbs (b - a) :: absDiff (b :: rest)

/-- `np.flatnonzero(xs > thr)`: the (sorted) indices where `xs` exceeds
`thr`. -/
def flatnonzeroGT (thr : ℚ) (xs : List ℚ) : List Nat :=
  (List.range xs.length).filter fun i => thr < xs.getD i 0

/-- `identify_profiles` lines 37-50: flag depth steps greater than 2, take
the times at the flagged indices, and bracket them with the first and last
timestamps via `np.insert(arr, [0, len], [time_[0], time_[-1]])`. -/
def inflectionTimes (ds : DepthDS) : List ℚ :=
  let idx := flatnonzeroGT 2 (absDiff ds.depth)
  ds.time.getD 0 0 ::
    (idx.map (fun i => ds.time.getD i 0) ++ [ds.time.getD (ds.time.length - 1) 0])

/-- Consecutive pairs of a list, mirroring the loop
`for idx in range(len(inflection_times)-1)` that reads
`inflection_times[idx]` and `inflection_times[idx+1]`. -/
def windowPairs : List ℚ → List (ℚ × ℚ)
  | a :: b :: rest => (a, b) :: windowPairs (b :: rest)
  | _ => []

/-- `np.flatnonzero(np.logical_and(time_ > pstart, time_ <= pend))`:
sample indices strictly after `pstart` and at or before `pend`. -/
def profileIdx (time : List ℚ) (p : ℚ × ℚ) : List Nat :=
  (List.range time.length).filter fun i =>
    p.1 < time.getD i 0 ∧ time.getD i 0 ≤ p.2

/-- `identify_profiles` lines 53-65: one index set per consecutive pair of
bracketed inflection times, empty sets skipped (`if len(profile_idx) == 0:
continue`). -/
def identify_profiles (ds : DepthDS) : List (List Nat) :=
  ((windowPairs (inflectionTimes ds)).map (profileIdx ds.time)).filter
    fun l => !l.isEmpty

/-- Fancy-index assignment `profiles[idx] = n` on an array of length
`refLen`: every position listed in `pos` is overwritten with `v`. -/
def writeIds (arr : List ℕ) (pos : List Nat) (v : ℕ) : List ℕ :=
  (List.range arr.length).map fun i => if i ∈ pos then v else arr.getD i 0

/-- `get_profile_ids` lines 84-92: start from `np.zeros`, scatter each
profile's sequence number into its member positions. -/
def get_profile_ids (ds : DepthDS) : List ℕ :=
  ((identify_profiles ds).enum).foldl
    (fun arr p => writeIds arr p.2 p.1)
    (List.replicate ds.time.length 0)

/-! ## Embedding of `merge.py`: `sensor_variables` -/

/-- The six keys of the dictionary built by `sensor_variables`. -/
inductive SensorGroup
  | ctd | oxy | flbbcd | par | glider | profile
deriving Repr, DecidableEq

/-- One variable of an IOOS GDAC dataset, reduced to the metadata
`sensor_variables` inspects: its name, its leading dimension
(`gdac[var].dims[0]`), the optional `instrument` attribute string, and
whether a `source_sensor` attribute is present. -/
structure GVar where
  name : String
  dim0 : String
  instrument : Option String
  sourceSensor : Bool
deriving Repr, DecidableEq

/-- Python's substring test `sub in s`. -/
def strContains (s sub : String) : Bool := decide (sub.data <:+: s.data)

/-- The `if`/`elif` chain of `sensor_variables` (merge.py lines 43-62),
deciding which list a variable is appended to, or `none` when the variable
falls through every branch (`pass` / the `platform_meta` `continue`). -/
def classifyVar (v : GVar) : Option SensorGroup :=
  if v.dim0 = "profile" then some .profile
  else
    match v.instrument with
    | some instr =>
        if v.name = "platform_meta" then none
        else if strContains instr "ctd" then some .ctd
        else if strContains instr "oxy" then some .oxy
        else if strContains instr "par" then some .par
        else if strContains instr "flbbcd" then some .flbbcd
        else none
    | none => if v.sourceSensor then some .glider else none

/-- `sensor_variables`: the dictionary of per-group variable-name lists.
Appending each matching variable in iteration order is the same as
filtering the variable list by its classification. -/
def sensor_variables (gdac : List GVar) (g : SensorGroup) : List String :=
  (gdac.filter fun v => classifyVar v = some g).map (·.name)

/-- A variable whose `instrument` attribute names one of the four known
instrument classes. -/
def recognizedInstrument (v : GVar) : Bool :=
  match v.instrument with
  | some instr =>
      strContains instr "ctd" || strContains instr "oxy" ||
        strContains instr "par" || strContains instr "flbbcd"
  | none => false

/-! ## Embedding of `merge.py`: `split_data` -/

/-- A science dataset for `split_data`: a row count and named channels,
each channel holding one optional (possibly-NaN) value per row. -/
structure SciDS where
  nrows : ℕ
  channels : List (String × List (Option ℚ))
deriving Repr, DecidableEq

/-- The data list of a named channel (missing channels give `[]`). -/
def chanData (ds : SciDS) (nm : String) : List (Option ℚ) :=
  match ds.channels.find? (fun c => c.1 = nm) with
  | some c => c.2
  | none => []

/-- The names of the channels of a dataset. -/
def chanNames (ds : SciDS) : List String := ds.channels.map (·.1)

/-- `gdac[sensor_vars]`: select the named channels, raising a `KeyError`
that names a missing channel when one is absent. -/
def selectVars (ds : SciDS) (names : List String) : Except String SciDS :=
  match names.find? (fun nm => decide (nm ∉ chanNames ds)) with
  | some missing => .error missing
  | none => .ok ⟨ds.nrows, names.map fun nm => (nm, chanData ds nm)⟩

/-- Whether every channel of the dataset has a present (non-NaN) value in
row `i`. -/
def rowFull (ds : SciDS) (i : ℕ) : Bool :=
  ds.channels.all fun c => (c.2.getD i none).isSome

/-- `dropna(dim='time')` with xarray's default `how='any'`: keep exactly
the rows in which every channel is non-missing. -/
def dropna_any (ds : SciDS) : SciDS :=
  let keep := (List.range ds.nrows).filter (rowFull ds)
  ⟨keep.length, ds.channels.map fun c => (c.1, keep.map fun i => c.2.getD i none)⟩

/-- `split_data` (merge.py lines 78-81): `gdac[sensor_vars].dropna(dim='time')`. -/
def split_data (ds : SciDS) (names : List String) : Except String SciDS :=
  (selectVars ds names).map dropna_any

/-! ## Embedding of `merge.py`: the rename step of `merge_datasets` -/

/-- A split-off sub-dataset as seen by the rename loop of `merge_datasets`:
its variable names and its coordinate names. -/
structure SubDS where
  vars : List String
  coords : List String
deriving Repr, DecidableEq

/-- The rename loop of `merge_datasets` (lines 121-125): every variable
that is not a coordinate is renamed to `'_'.join((sensor, v))`. -/
def rename_vars (sensor : String) (sd : SubDS) : SubDS :=
  ⟨sd.vars.map fun v => if v ∈ sd.coords then v else sensor ++ "_" ++ v, sd.coords⟩

/-- The variable names present after `xr.merge` folds every renamed group
sub-dataset into the DVL dataset (lines 114-135), at the level of names. -/
def mergedNames (dvlVars : List String) (groups : List (String × SubDS)) : List String :=
  dvlVars ++ (groups.map fun g => (rename_vars g.1 g.2).vars).flatten

/-! ## Embedding of `merge.py`: `add_waypoints` -/

/-- A cleaned waypoint row: parsed timestamp, target latitude, target
longitude. -/
structure Wpt where
  time : ℚ
  lat : ℚ
  lon : ℚ
deriving Repr, DecidableEq

/-- `waypoints[['time','c_wpt_lat','c_wpt_lon']].dropna()`: keep only rows
with all three fields present. -/
def dropnaW (raw : List (Option ℚ × Option ℚ × Option ℚ)) : List Wpt :=
  raw.filterMap fun r =>
    match r with
    | (some t, some la, some lo) => some ⟨t, la, lo⟩
    | _ => none

/-- The collapse mask applied row by row: a row is dropped exactly when its
latitude delta and longitude delta relative to the immediately preceding
row of the original frame are both zero
(`(d_wpt['c_wpt_lat'] == 0) & (d_wpt['c_wpt_lon'] == 0)`). -/
def collapseAux (prev : Wpt) : List Wpt → List Wpt
  | [] => []
  | w :: ws =>
      if w.lat = prev.lat ∧ w.lon = prev.lon then collapseAux w ws
      else w :: collapseAux w ws

/-- The duplicate collapse of `add_waypoints` (lines 167-169): the first
row's deltas are NaN, so it is always kept. -/
def collapse : List Wpt → List Wpt
  | [] => []
  | w :: ws => w :: collapseAux w ws

/-- One numpy fancy-index assignment `arr[idx] = v` where `idx` collects
the reference-time positions satisfying `cond`. -/
def writePos (arr : List (ℚ × ℚ)) (refTimes : List ℚ) (cond : ℚ → Bool)
    (v : ℚ × ℚ) : List (ℚ × ℚ) :=
  (List.range refTimes.length).map fun i =>
    if cond (refTimes.getD i 0) then v else arr.getD i (0, 0)

/-- The per-iteration condition of the waypoint loop (lines 179-190): the
first waypoint covers every reference time at or before its own timestamp;
waypoint `n ≥ 1` covers the interval
`(waypoints['time'].iloc[n-1], t]`. -/
def wptCond (ws : List Wpt) (n : ℕ) (w : Wpt) (t' : ℚ) : Bool :=
  if n = 0 then t' ≤ w.time
  else (ws.getD (n - 1) ⟨0, 0, 0⟩).time < t' ∧ t' ≤ w.time

/-- The waypoint mapping loop of `add_waypoints`: starting from zero-filled
`wpt_lat`/`wpt_lon` arrays, successively write each surviving waypoint's
(lat, lon) into the reference positions its interval covers. -/
def mapWaypoints (refTimes : List ℚ) (ws : List Wpt) : List (ℚ × ℚ) :=
  (ws.enum).foldl
    (fun arr p => writePos arr refTimes (wptCond ws p.1 p.2) (p.2.lat, p.2.lon))
    (List.replicate refTimes.length ((0 : ℚ), (0 : ℚ)))

/-- `add_waypoints` (lines 163-190) at the level of the produced
`(waypoint_lat, waypoint_lon)` pairs: clean the raw frame, collapse
duplicates, then map onto the reference time base. -/
def add_waypoints (refTimes : List ℚ)
    (raw : List (Option ℚ × Option ℚ × Option ℚ)) : List (ℚ × ℚ) :=
  mapWaypoints refTimes (collapse (dropnaW raw))

/-- Two waypoint rows agree in both latitude and longitude. -/
def samePos (a b : Wpt) : Prop := a.lat = b.lat ∧ a.lon = b.lon

instance : Inhabited Wpt := ⟨⟨0, 0, 0⟩⟩

instance : DecidableEq SensorGroup := fun a b => by
  cases a <;> cases b <;> first | exact isTrue rfl | exact isFalse (by intro h; cases h)

end GliderDVL

namespace GliderDVL

/-! ## Lemmas about the waypoint collapse (claim C7) -/

theorem collapseAux_chain (p : Wpt) (l : List Wpt) :
    List.Chain' (fun a b => ¬ samePos b a) (p :: collapseAux p l) := by
  induction l generalizing p with
  | nil => simp [collapseAux]
  | cons w ws ih =>
      by_cases h : w.lat = p.lat ∧ w.lon = p.lon
      · rw [collapseAux, if_pos h]
        have hw := ih w
        cases hcw : collapseAux w ws with
        | nil => simp
        | cons z zs =>
            rw [hcw] at hw
            rcases List.chain'_cons.mp hw with ⟨hz, hrest⟩
            exact List.chain'_cons.mpr ⟨by
              intro hc; exact hz ⟨hc.1.trans h.1.symm, hc.2.trans h.2.symm⟩, hrest⟩
      · rw [collapseAux, if_neg h]
        exact List.chain'_cons.mpr ⟨fun hc => h ⟨hc.1, hc.2⟩, ih w⟩

theorem collapseAux_of_chain (p : Wpt) (l : List Wpt)
    (h : List.Chain' (fun a b => ¬ samePos b a) (p :: l)) :
    collapseAux p l = l := by
  induction l generalizing p with
  | nil => rfl
  | cons w ws ih =>
      rcases List.chain'_cons.mp h with ⟨hw, hrest⟩
      rw [collapseAux, if_neg (fun hc => hw ⟨hc.1, hc.2⟩)]
      rw [ih w hrest]

/-- C7: the duplicate-collapse step of the waypoint mapper is idempotent
(applying it to an already-collapsed log removes no further rows), and the
first row of the log is always retained. -/
theorem collapse_idempotent (l : List Wpt) (x : Wpt) (xs : List Wpt) :
    collapse (collapse l) = collapse l ∧ (collapse (x :: xs)).headI = x := by
  constructor
  · cases l with
    | nil => rfl
    | cons w ws =>
        show collapse (w :: collapseAux w ws) = w :: collapseAux w ws
        rw [collapse, collapseAux_of_chain w _ (collapseAux_chain w ws)]
  · rfl

/-! ## Lemmas about `split_data` (claims C2, C9) -/

theorem all_map_general {α β : Type} (l : List α) (f : α → β) (p : β → Bool) :
    (l.map f).all p = l.all fun a => p (f a) := by
  induction l with
  | nil => rfl
  | cons a l ih => simp only [List.map_cons, List.all_cons, ih]

theorem chanData_eq_of_channels {ds : SciDS} {cs : List (String × List (Option ℚ))}
    (h : ds.channels = cs) (nm : String) :
    chanData ds nm =
      match cs.find? (fun c => decide (c.1 = nm)) with
      | some c => c.2
      | none => [] := by
  simp only [chanData, h]

theorem selectVars_error (ds : SciDS) (names : List String)
    (h : ∃ nm ∈ names, nm ∉ chanNames ds) :
    ∃ m, selectVars ds names = .error m ∧ m ∈ names ∧ m ∉ chanNames ds := by
  rcases h with ⟨nm, hmem, habs⟩
  have hsome : (names.find? (fun nm => decide (nm ∉ chanNames ds))).isSome :=
    List.find?_isSome.mpr ⟨nm, hmem, decide_eq_true habs⟩
  rcases Option.isSome_iff_exists.mp hsome with ⟨m, hm⟩
  have hp := List.find?_some hm
  refine ⟨m, ?_, List.mem_of_find?_eq_some hm, of_decide_eq_true hp⟩
  simp only [selectVars, hm]

theorem selectVars_ok (ds : SciDS) (names : List String)
    (hall : ∀ nm ∈ names, nm ∈ chanNames ds) :
    selectVars ds names = .ok ⟨ds.nrows, names.map fun nm => (nm, chanData ds nm)⟩ := by
  have hnone : names.find? (fun nm => decide (nm ∉ chanNames ds)) = none := by
    refine List.find?_eq_none.mpr fun nm hnm => ?_
    simp only [decide_eq_true_eq, Decidable.not_not]
    exact hall nm hnm
  simp only [selectVars, hnone]

/-- C9: requesting a channel name absent from the dataset makes `split_data`
fail with a lookup error carrying a missing name, while a request whose
names are all present succeeds. -/
theorem split_data_lookup_error (ds : SciDS) (names : List String) :
    ((∃ nm ∈ names, nm ∉ chanNames ds) →
      ∃ m, split_data ds names = .error m ∧ m ∈ names ∧ m ∉ chanNames ds) ∧
    ((∀ nm ∈ names, nm ∈ chanNames ds) → ∃ d, split_data ds names = .ok d) := by
  constructor
  · intro h
    rcases selectVars_error ds names h with ⟨m, hm, h1, h2⟩
    exact ⟨m, by simp only [split_data, hm, Except.map], h1, h2⟩
  · intro hall
    exact ⟨dropna_any ⟨ds.nrows, names.map fun nm => (nm, chanData ds nm)⟩,
      by simp only [split_data, selectVars_ok ds names hall, Except.map]⟩

/-- Witness for C9 at a concrete dataset and name list. -/
theorem split_data_lookup_error_witness :
    ∃ m, split_data ⟨1, [("a", [some (1 : ℚ)])]⟩ ["a", "b"] = .error m ∧
      m ∈ ["a", "b"] ∧ m ∉ chanNames ⟨1, [("a", [some (1 : ℚ)])]⟩ :=
  (split_data_lookup_error ⟨1, [("a", [some (1 : ℚ)])]⟩ ["a", "b"]).1
    ⟨"b", by decide, by decide⟩

/-- C2 counterexample: a dataset with one row in which channel "B" is
non-missing but channel "A" is missing. The claim says the row is
retained; `split_data` (xarray `dropna` with its default `how='any'`)
removes it, leaving zero rows. -/
theorem split_data_partial_row_dropped :
    (∃ d, split_data ⟨1, [("A", [none]), ("B", [some (1 : ℚ)])]⟩ ["A", "B"] = .ok d ∧
      d.nrows = 0) ∧
    ((chanData ⟨1, [("A", [none]), ("B", [some (1 : ℚ)])]⟩ "B").getD 0 none).isSome = true := by
  exact ⟨⟨⟨0, [("A", []), ("B", [])]⟩, rfl, rfl⟩, rfl⟩

/-- C2 (amended): for every dataset and list of channel names all present in
the dataset, `split_data` removes exactly those rows in which at least one
selected channel is missing: the surviving rows are, in order, the rows in
which every selected channel is non-missing, and each selected channel is
restricted to those rows. -/
theorem split_data_removes_any_missing (ds : SciDS) (names : List String)
    (hall : ∀ nm ∈ names, nm ∈ chanNames ds) :
    ∃ d, split_data ds names = .ok d ∧
      chanNames d = names ∧
      d.nrows = ((List.range ds.nrows).filter fun i =>
        names.all fun nm => ((chanData ds nm).getD i none).isSome).length ∧
      ∀ nm ∈ names, chanData d nm = ((List.range ds.nrows).filter fun i =>
        names.all fun nm => ((chanData ds nm).getD i none).isSome).map
          fun i => (chanData ds nm).getD i none := by
  have hsel := selectVars_ok ds names hall
  have hrow : rowFull ⟨ds.nrows, names.map fun nm => (nm, chanData ds nm)⟩ =
      fun i => names.all fun nm => ((chanData ds nm).getD i none).isSome := by
    funext i
    show ((names.map fun nm => (nm, chanData ds nm)).all
      fun c => (c.2.getD i none).isSome) = _
    rw [all_map_general]
  have hchan : (dropna_any ⟨ds.nrows, names.map fun nm => (nm, chanData ds nm)⟩).channels
      = names.map fun nm' => (nm',
        ((List.range ds.nrows).filter fun i =>
          names.all fun nm2 => ((chanData ds nm2).getD i none).isSome).map
            fun i => (chanData ds nm').getD i none) := by
    show (names.map fun nm => (nm, chanData ds nm)).map _ = _
    rw [List.map_map, hrow]
    rfl
  refine ⟨dropna_any ⟨ds.nrows, names.map fun nm => (nm, chanData ds nm)⟩,
    by simp only [split_data, hsel, Except.map], ?_, ?_, ?_⟩
  · show ((dropna_any ⟨ds.nrows, names.map fun nm => (nm, chanData ds nm)⟩).channels).map _ = _
    rw [hchan, List.map_map]
    exact List.map_id'' (fun _ => rfl) names
  · show (((List.range ds.nrows).filter
      (rowFull ⟨ds.nrows, names.map fun nm => (nm, chanData ds nm)⟩)).length) = _
    rw [hrow]
  · intro nm hnm
    have hfindn : names.find? (fun nm' => decide (nm' = nm)) = some nm := by
      have hsome : (names.find? fun nm' => decide (nm' = nm)).isSome :=
        List.find?_isSome.mpr ⟨nm, hnm, decide_eq_true rfl⟩
      rcases Option.isSome_iff_exists.mp hsome with ⟨m, hm⟩
      have hp := List.find?_some hm
      rw [hm, of_decide_eq_true hp]
    rw [chanData_eq_of_channels hchan nm]
    rw [List.find?_map]
    have hcomp : names.find? ((fun c : String × List (Option ℚ) => decide (c.1 = nm)) ∘
        fun nm' => (nm',
          ((List.range ds.nrows).filter fun i =>
            names.all fun nm2 => ((chanData ds nm2).getD i none).isSome).map
              fun i => (chanData ds nm').getD i none)) = some nm := hfindn
    rw [hcomp]
    rfl

/-- Witness for the amended C2 at a concrete two-channel dataset in which
row 0 has a missing "A" value and row 1 is fully present. -/
theorem split_data_removes_any_missing_witness :
    (∀ nm ∈ ["A", "B"],
      nm ∈ chanNames ⟨2, [("A", [none, some (1 : ℚ)]), ("B", [some 2, some 3])]⟩) ∧
    (∃ d, split_data ⟨2, [("A", [none, some (1 : ℚ)]), ("B", [some 2, some 3])]⟩
        ["A", "B"] = .ok d ∧
      chanNames d = ["A", "B"] ∧
      d.nrows = ((List.range 2).filter fun i => (["A", "B"]).all fun nm =>
        ((chanData ⟨2, [("A", [none, some (1 : ℚ)]), ("B", [some 2, some 3])]⟩ nm).getD
          i none).isSome).length ∧
      ∀ nm ∈ ["A", "B"], chanData d nm = ((List.range 2).filter fun i =>
        (["A", "B"]).all fun nm =>
          ((chanData ⟨2, [("A", [none, some (1 : ℚ)]), ("B", [some 2, some 3])]⟩ nm).getD
            i none).isSome).map
        fun i => (chanData ⟨2, [("A", [none, some (1 : ℚ)]), ("B", [some 2, some 3])]⟩
          nm).getD i none) :=
  ⟨by decide, split_data_removes_any_missing _ ["A", "B"] (by decide)⟩

/-! ## Lemmas about the waypoint mapping (claims C3, C4) -/

theorem getD_range_map {α : Type} (f : ℕ → α) (n i : ℕ) (d : α) (hi : i < n) :
    ((List.range n).map f).getD i d = f i := by
  simp only [List.getD_eq_getElem?_getD, List.getElem?_map, List.getElem?_range hi,
    Option.map_some', Option.getD_some]

theorem writePos_getD (arr : List (ℚ × ℚ)) (refTimes : List ℚ) (c : ℚ → Bool)
    (v : ℚ × ℚ) (i : ℕ) (hi : i < refTimes.length) :
    (writePos arr refTimes c v).getD i (0, 0) =
      if c (refTimes.getD i 0) then v else arr.getD i (0, 0) :=
  getD_range_map _ _ _ _ hi

theorem foldl_writePos_no_match (refTimes : List ℚ) (W : List Wpt) (i : ℕ)
    (hi : i < refTimes.length) (l : List (ℕ × Wpt)) (arr : List (ℚ × ℚ))
    (hnone : ∀ p ∈ l, wptCond W p.1 p.2 (refTimes.getD i 0) = false) :
    ((l.foldl (fun arr p =>
        writePos arr refTimes (wptCond W p.1 p.2) (p.2.lat, p.2.lon)) arr)).getD i (0, 0)
      = arr.getD i (0, 0) := by
  induction l generalizing arr with
  | nil => rfl
  | cons q l ih =>
      rw [List.foldl_cons, ih _ (fun p hp => hnone p (List.mem_cons_of_mem q hp)),
        writePos_getD _ _ _ _ i hi, hnone q (List.mem_cons_self q l), if_neg]
      simp only [Bool.false_eq_true, not_false_eq_true]

theorem foldl_writePos_unique_match (refTimes : List ℚ) (W : List Wpt) (i : ℕ)
    (hi : i < refTimes.length) (l : List (ℕ × Wpt)) (arr : List (ℚ × ℚ))
    (p0 : ℕ × Wpt) (hmem : p0 ∈ l)
    (hp0 : wptCond W p0.1 p0.2 (refTimes.getD i 0) = true)
    (huniq : ∀ p ∈ l, wptCond W p.1 p.2 (refTimes.getD i 0) = true → p = p0) :
    ((l.foldl (fun arr p =>
        writePos arr refTimes (wptCond W p.1 p.2) (p.2.lat, p.2.lon)) arr)).getD i (0, 0)
      = (p0.2.lat, p0.2.lon) := by
  induction l generalizing arr with
  | nil => cases hmem
  | cons q l ih =>
      rw [List.foldl_cons]
      by_cases hq : wptCond W q.1 q.2 (refTimes.getD i 0) = true
      · have hq0 : q = p0 := huniq q (List.mem_cons_self q l) hq
        by_cases hex : ∃ p ∈ l, wptCond W p.1 p.2 (refTimes.getD i 0) = true
        · rcases hex with ⟨p, hpl, hpc⟩
          have hp0l : p0 ∈ l := huniq p (List.mem_cons_of_mem q hpl) hpc ▸ hpl
          exact ih _ hp0l fun p hp hc => huniq p (List.mem_cons_of_mem q hp) hc
        · push_neg at hex
          rw [foldl_writePos_no_match refTimes W i hi l _
            (fun p hp => Bool.not_eq_true _ ▸ hex p hp),
            writePos_getD _ _ _ _ i hi, hq0, if_pos hp0]
      · have hp0l : p0 ∈ l := by
          rcases List.mem_cons.mp hmem with h | h
          · exact absurd (h ▸ hp0) hq
          · exact h
        exact ih _ hp0l fun p hp hc => huniq p (List.mem_cons_of_mem q hp) hc

theorem wpt_time_mono (W : List Wpt)
    (hW : W.Pairwise (fun a b => a.time < b.time)) (m n : ℕ) (hmn : m ≤ n)
    (hn : n < W.length) :
    (W.getD m default).time ≤ (W.getD n default).time := by
  rcases Nat.lt_or_ge m n with h | h
  · have := List.pairwise_iff_getElem.mp hW m n (h.trans hn) hn h
    rw [List.getD_eq_getElem?_getD, List.getD_eq_getElem?_getD,
      List.getElem?_eq_getElem (h.trans hn), List.getElem?_eq_getElem hn]
    exact le_of_lt this
  · have hmn' : m = n := le_antisymm hmn h
    rw [hmn']

theorem getD_replicate_pair (n i : ℕ) :
    (List.replicate n ((0 : ℚ), (0 : ℚ))).getD i (0, 0) = (0, 0) := by
  rw [List.getD_eq_getElem?_getD, List.getElem?_replicate]
  split <;> rfl

theorem wptCond_zero_iff (W : List Wpt) (w : Wpt) (t' : ℚ) :
    wptCond W 0 w t' = true ↔ t' ≤ w.time := by
  simp [wptCond]

theorem wptCond_succ_iff (W : List Wpt) (n : ℕ) (w : Wpt) (t' : ℚ) :
    wptCond W (n + 1) w t' = true ↔
      ((W.getD n default).time < t' ∧ t' ≤ w.time) := by
  simp only [wptCond, Nat.succ_ne_zero, if_false, Nat.add_sub_cancel, decide_eq_true_eq]
  exact Iff.rfl

theorem mem_enum_getD {W : List Wpt} {m : ℕ} {w : Wpt} (h : (m, w) ∈ W.enum) :
    m < W.length ∧ W.getD m default = w := by
  have h2 := List.mem_enum_iff_getElem?.mp h
  rcases List.getElem?_eq_some_iff.mp h2 with ⟨hm, hw⟩
  refine ⟨hm, ?_⟩
  rw [List.getD_eq_getElem?_getD, List.getElem?_eq_getElem hm, Option.getD_some, hw]

theorem enum_mem_of_lt {W : List Wpt} {m : ℕ} (hm : m < W.length) :
    (m, W.getD m default) ∈ W.enum := by
  apply List.mem_enum_iff_getElem?.mpr
  rw [List.getElem?_eq_getElem hm]
  rw [List.getD_eq_getElem?_getD, List.getElem?_eq_getElem hm, Option.getD_some]

/-- C3 (amended): for every cleaned, collapsed waypoint log whose surviving
timestamps are strictly increasing and every reference position, the mapped
pair is that of the **earliest** surviving waypoint whose timestamp is at or
after the reference time (so timestamps at or before the first waypoint all
receive the first waypoint's value), and reference times later than every
waypoint keep the zero sentinel. -/
theorem add_waypoints_upcoming (refTimes : List ℚ)
    (raw : List (Option ℚ × Option ℚ × Option ℚ))
    (hW : (collapse (dropnaW raw)).Pairwise (fun a b => a.time < b.time))
    (i : ℕ) (hi : i < refTimes.length) :
    (add_waypoints refTimes raw).getD i (0, 0) =
      match (collapse (dropnaW raw)).find?
          (fun w => decide (refTimes.getD i 0 ≤ w.time)) with
      | some w => (w.lat, w.lon)
      | none => (0, 0) := by
  rcases hfind : (collapse (dropnaW raw)).find?
      (fun w => decide (refTimes.getD i 0 ≤ w.time)) with _ | w
  · have hall := List.find?_eq_none.mp hfind
    rw [hfind]
    show (mapWaypoints refTimes (collapse (dropnaW raw))).getD i (0, 0) = (0, 0)
    rw [mapWaypoints, foldl_writePos_no_match refTimes _ i hi _ _ ?_,
      getD_replicate_pair]
    intro p hp
    rcases mem_enum_getD (by rw [show (p.1, p.2) = p from rfl] at *; exact hp) with ⟨hm, hw⟩
    have hwmem : p.2 ∈ collapse (dropnaW raw) := by
      rw [← hw]
      rw [List.getD_eq_getElem?_getD, List.getElem?_eq_getElem hm, Option.getD_some]
      exact List.getElem_mem _
    have hlt : p.2.time < refTimes.getD i 0 := by
      by_contra hc
      exact hall p.2 hwmem (decide_eq_true (not_lt.mp hc))
    rw [Bool.eq_false_iff]
    intro hc
    rcases p with ⟨m, w⟩
    cases m with
    | zero => exact absurd ((wptCond_zero_iff _ _ _).mp hc) (not_le.mpr hlt)
    | succ n => exact absurd ((wptCond_succ_iff _ _ _ _).mp hc).2 (not_le.mpr hlt)
  · rcases (List.find?_eq_some.mp hfind) with ⟨hpw, as, bs, hsplit, hprev⟩
    have hpw' : refTimes.getD i 0 ≤ w.time := of_decide_eq_true hpw
    have hklen : as.length < (collapse (dropnaW raw)).length := by
      rw [hsplit, List.length_append, List.length_cons]
      omega
    have hgetk : (collapse (dropnaW raw)).getD as.length default = w := by
      rw [hsplit, List.getD_eq_getElem?_getD, List.getElem?_append_right (le_refl _),
        Nat.sub_self, List.getElem?_cons_zero, Option.getD_some]
    have hprevlt : ∀ j, j < as.length →
        ((collapse (dropnaW raw)).getD j default).time < refTimes.getD i 0 := by
      intro j hj
      have hmemas : as.getD j default ∈ as := by
        rw [List.getD_eq_getElem?_getD, List.getElem?_eq_getElem hj, Option.getD_some]
        exact List.getElem_mem _
      have hget : (collapse (dropnaW raw)).getD j default = as.getD j default := by
        rw [hsplit, List.getD_eq_getElem?_getD, List.getElem?_append_left hj,
          List.getD_eq_getElem?_getD]
      have := hprev _ hmemas
      simp only [Bool.not_eq_true', decide_eq_false_iff_not, not_le] at this
      rw [hget]
      exact this
    have hcondk : wptCond (collapse (dropnaW raw)) as.length w (refTimes.getD i 0) = true := by
      cases hk : as.length with
      | zero => exact (wptCond_zero_iff _ _ _).mpr hpw'
      | succ j =>
          refine (wptCond_succ_iff _ _ _ _).mpr ⟨?_, hpw'⟩
          exact hprevlt j (by omega)
    have huniq : ∀ p ∈ (collapse (dropnaW raw)).enum,
        wptCond (collapse (dropnaW raw)) p.1 p.2 (refTimes.getD i 0) = true →
          p = (as.length, w) := by
      rintro ⟨m, w'⟩ hmem hcond
      rcases mem_enum_getD hmem with ⟨hm, hw'⟩
      have hmk : m = as.length := by
        cases hmc : m with
        | zero =>
            rw [hmc] at hcond
            have h0 : refTimes.getD i 0 ≤ w'.time := (wptCond_zero_iff _ _ _).mp hcond
            by_contra hne
            have h0lt := hprevlt 0 (by omega)
            rw [show (0 : ℕ) = m from hmc.symm, hw'] at h0lt
            exact absurd h0 (not_le.mpr h0lt)
        | succ j =>
            rw [hmc] at hcond
            rcases (wptCond_succ_iff _ _ _ _).mp hcond with ⟨hjlt, hwle⟩
            rcases Nat.lt_trichotomy (j + 1) as.length with h | h | h
            · have := hprevlt (j + 1) h
              rw [← hmc, hw'] at this
              exact absurd hwle (not_le.mpr this)
            · exact hmc ▸ h
            · exfalso
              have hmono := wpt_time_mono _ hW as.length j (by omega) (by omega)
              rw [hgetk] at hmono
              exact absurd (lt_of_le_of_lt (hpw'.trans hmono) hjlt) (lt_irrefl _)
      subst hmk
      rw [hgetk] at hw'
      rw [hw']
    rw [hfind]
    show (mapWaypoints refTimes (collapse (dropnaW raw))).getD i (0, 0) = (w.lat, w.lon)
    rw [mapWaypoints, foldl_writePos_unique_match refTimes _ i hi _ _ (as.length, w)
      (hgetk ▸ enum_mem_of_lt hklen) hcondk huniq]

/-- C3 counterexample: with surviving waypoints at times 0 and 10 and a
reference timestamp 5, the most recent waypoint whose timestamp is ≤ 5 is
the one at time 0 carrying (1, 2), yet the mapper assigns (3, 4), the
value of the *later* waypoint at time 10. -/
theorem add_waypoints_not_most_recent :
    add_waypoints [5]
      [(some (0 : ℚ), some (1 : ℚ), some (2 : ℚ)), (some 10, some 3, some 4)] = [(3, 4)] ∧
    (collapse (dropnaW
      [(some (0 : ℚ), some (1 : ℚ), some (2 : ℚ)), (some 10, some 3, some 4)])).filter
        (fun w => decide (w.time ≤ 5)) = [⟨0, 1, 2⟩] := by
  constructor <;> rfl

/-- Witness for the amended C3 at the concrete two-waypoint log. -/
theorem add_waypoints_upcoming_witness :
    (add_waypoints [5]
      [(some (0 : ℚ), some (1 : ℚ), some (2 : ℚ)), (some 10, some 3, some 4)]).getD 0 (0, 0) =
      match (collapse (dropnaW
          [(some (0 : ℚ), some (1 : ℚ), some (2 : ℚ)), (some 10, some 3, some 4)])).find?
          (fun w => decide (([(5 : ℚ)]).getD 0 0 ≤ w.time)) with
      | some w => (w.lat, w.lon)
      | none => (0, 0) :=
  add_waypoints_upcoming [5]
    [(some (0 : ℚ), some (1 : ℚ), some (2 : ℚ)), (some 10, some 3, some 4)]
    (by decide) 0 (by decide)

/-- C4: the three-row waypoint log with a duplicated first row collapses to
two rows (the duplicate dropped, the first row kept), every reference
timestamp at or before `t0` receives (10, -70), and every reference
timestamp in `(t0, t1]` receives (10.5, -70.2). -/
theorem add_waypoints_scenario (t0 t1 : ℚ) (h01 : t0 ≤ t1) (refTimes : List ℚ) :
    collapse (dropnaW [(some t0, some 10, some (-70)), (some t0, some 10, some (-70)),
      (some t1, some 10.5, some (-70.2))]) =
      [⟨t0, 10, -70⟩, ⟨t1, 10.5, -70.2⟩] ∧
    (∀ i, i < refTimes.length → refTimes.getD i 0 ≤ t0 →
      (add_waypoints refTimes [(some t0, some 10, some (-70)),
        (some t0, some 10, some (-70)),
        (some t1, some 10.5, some (-70.2))]).getD i (0, 0) = (10, -70)) ∧
    (∀ i, i < refTimes.length → t0 < refTimes.getD i 0 → refTimes.getD i 0 ≤ t1 →
      (add_waypoints refTimes [(some t0, some 10, some (-70)),
        (some t0, some 10, some (-70)),
        (some t1, some 10.5, some (-70.2))]).getD i (0, 0) = (10.5, -70.2)) := by
  have hcol : collapse (dropnaW [(some t0, some 10, some (-70)),
      (some t0, some 10, some (-70)), (some t1, some 10.5, some (-70.2))]) =
      [⟨t0, 10, -70⟩, ⟨t1, 10.5, -70.2⟩] := by
    show collapse [⟨t0, 10, -70⟩, ⟨t0, 10, -70⟩, ⟨t1, 10.5, -70.2⟩] = _
    rw [collapse, collapseAux, if_pos ⟨rfl, rfl⟩, collapseAux, if_neg (by norm_num),
      collapseAux]
  have hmap : ∀ i, i < refTimes.length →
      (add_waypoints refTimes [(some t0, some 10, some (-70)),
        (some t0, some 10, some (-70)),
        (some t1, some 10.5, some (-70.2))]).getD i (0, 0) =
      if wptCond [⟨t0, 10, -70⟩, ⟨t1, 10.5, -70.2⟩] 1 ⟨t1, 10.5, -70.2⟩
          (refTimes.getD i 0) then ((10.5 : ℚ), (-70.2 : ℚ))
      else if wptCond [⟨t0, 10, -70⟩, ⟨t1, 10.5, -70.2⟩] 0 ⟨t0, 10, -70⟩
          (refTimes.getD i 0) then ((10 : ℚ), (-70 : ℚ))
      else (0, 0) := by
    intro i hi
    rw [add_waypoints, hcol]
    rw [show mapWaypoints refTimes [⟨t0, 10, -70⟩, ⟨t1, 10.5, -70.2⟩] =
      writePos (writePos (List.replicate refTimes.length (0, 0)) refTimes
        (wptCond [⟨t0, 10, -70⟩, ⟨t1, 10.5, -70.2⟩] 0 ⟨t0, 10, -70⟩) (10, -70))
        refTimes (wptCond [⟨t0, 10, -70⟩, ⟨t1, 10.5, -70.2⟩] 1 ⟨t1, 10.5, -70.2⟩)
        (10.5, -70.2) from rfl]
    rw [writePos_getD _ _ _ _ i hi, writePos_getD _ _ _ _ i hi, getD_replicate_pair]
  refine ⟨hcol, ?_, ?_⟩
  · intro i hi ht
    rw [hmap i hi]
    have hc1 : wptCond [⟨t0, 10, -70⟩, ⟨t1, 10.5, -70.2⟩] 1 ⟨t1, 10.5, -70.2⟩
        (refTimes.getD i 0) = false := by
      rw [Bool.eq_false_iff]
      intro hc
      rcases (wptCond_succ_iff _ _ _ _).mp hc with ⟨hlt, _⟩
      exact absurd ht (not_le.mpr hlt)
    have hc0 : wptCond [⟨t0, 10, -70⟩, ⟨t1, 10.5, -70.2⟩] 0 ⟨t0, 10, -70⟩
        (refTimes.getD i 0) = true := (wptCond_zero_iff _ _ _).mpr ht
    rw [hc1, hc0]
    simp only [Bool.false_eq_true, if_false, if_true]
  · intro i hi ht1 ht2
    rw [hmap i hi]
    have hc1 : wptCond [⟨t0, 10, -70⟩, ⟨t1, 10.5, -70.2⟩] 1 ⟨t1, 10.5, -70.2⟩
        (refTimes.getD i 0) = true :=
      (wptCond_succ_iff _ _ _ _).mpr ⟨ht1, ht2⟩
    rw [hc1]
    simp only [if_true]

/-- Witness for C4 with `t0 = 0`, `t1 = 1` and reference times `[0, 1]`. -/
theorem add_waypoints_scenario_witness :
    collapse (dropnaW [(some (0 : ℚ), some 10, some (-70)), (some 0, some 10, some (-70)),
      (some 1, some 10.5, some (-70.2))]) = [⟨0, 10, -70⟩, ⟨1, 10.5, -70.2⟩] ∧
    (add_waypoints [(0 : ℚ), 1] [(some (0 : ℚ), some 10, some (-70)),
      (some 0, some 10, some (-70)),
      (some 1, some 10.5, some (-70.2))]).getD 0 (0, 0) = (10, -70) ∧
    (add_waypoints [(0 : ℚ), 1] [(some (0 : ℚ), some 10, some (-70)),
      (some 0, some 10, some (-70)),
      (some 1, some 10.5, some (-70.2))]).getD 1 (0, 0) = (10.5, -70.2) := by
  obtain ⟨h1, h2, h3⟩ := add_waypoints_scenario 0 1 (by norm_num) [0, 1]
  exact ⟨h1, h2 0 (by norm_num) (by norm_num [List.getD]),
    h3 1 (by norm_num) (by norm_num [List.getD]) (by norm_num [List.getD])⟩

/-! ## Lemmas about the profile segmenter (claims C1, C6, C10) -/

theorem absDiff_length : ∀ l : List ℚ, (absDiff l).length = l.length - 1
  | [] => rfl
  | [_] => rfl
  | a :: b :: rest => by
      rw [absDiff, List.length_cons, absDiff_length (b :: rest)]
      simp [List.length_cons]

theorem mem_flatnonzeroGT (thr : ℚ) (xs : List ℚ) (i : ℕ) :
    i ∈ flatnonzeroGT thr xs ↔ i < xs.length ∧ thr < xs.getD i 0 := by
  simp [flatnonzeroGT, List.mem_filter, List.mem_range]

theorem flatnonzeroGT_sorted (thr : ℚ) (xs : List ℚ) :
    (flatnonzeroGT thr xs).Pairwise (· < ·) :=
  List.Pairwise.sublist (List.filter_sublist _) (List.pairwise_lt_range _)

theorem time_getD_lt (time : List ℚ) (hs : time.Pairwise (· < ·)) {i j : ℕ}
    (hij : i < j) (hj : j < time.length) :
    time.getD i 0 < time.getD j 0 := by
  have := List.pairwise_iff_getElem.mp hs i j (hij.trans hj) hj hij
  rw [List.getD_eq_getElem?_getD, List.getD_eq_getElem?_getD,
    List.getElem?_eq_getElem (hij.trans hj), List.getElem?_eq_getElem hj]
  exact this

theorem time_getD_le (time : List ℚ) (hs : time.Pairwise (· < ·)) {i j : ℕ}
    (hij : i ≤ j) (hj : j < time.length) :
    time.getD i 0 ≤ time.getD j 0 := by
  rcases Nat.lt_or_ge i j with h | h
  · exact le_of_lt (time_getD_lt time hs h hj)
  · rw [le_antisymm hij h]

theorem mem_windowPairs : ∀ (l : List ℚ) (p : ℚ × ℚ), p ∈ windowPairs l →
    p.1 ∈ l ∧ p.2 ∈ l
  | [], p, h => by cases h
  | [_], p, h => by cases h
  | a :: b :: rest, p, h => by
      rw [windowPairs] at h
      rcases List.mem_cons.mp h with h | h
      · subst h
        exact ⟨List.mem_cons_self _ _, List.mem_cons_of_mem _ (List.mem_cons_self _ _)⟩
      · rcases mem_windowPairs (b :: rest) p h with ⟨h1, h2⟩
        exact ⟨List.mem_cons_of_mem _ h1, List.mem_cons_of_mem _ h2⟩

theorem le_getLastD_of_pairwise : ∀ (l : List ℚ) (a : ℚ),
    (a :: l).Pairwise (· ≤ ·) → a ≤ (a :: l).getLastD 0
  | [], a, _ => le_refl a
  | c :: l, a, h => by
      rcases List.pairwise_cons.mp h with ⟨hhead, htail⟩
      have ih := le_getLastD_of_pairwise l c htail
      have hstep : (a :: c :: l).getLastD 0 = (c :: l).getLastD 0 := by
        simp [List.getLastD_cons]
      rw [hstep]
      exact le_trans (hhead c (List.mem_cons_self _ _)) ih

theorem windowPairs_cover (x : ℚ) : ∀ (l : List ℚ) (a : ℚ),
    (a :: l).Pairwise (· ≤ ·) →
    ((∃ p ∈ windowPairs (a :: l), p.1 < x ∧ x ≤ p.2) ↔
      (a < x ∧ x ≤ (a :: l).getLastD 0))
  | [], a, _ => by
      constructor
      · rintro ⟨p, hp, -⟩
        cases hp
      · rintro ⟨h1, h2⟩
        rw [show ([a] : List ℚ).getLastD 0 = a from rfl] at h2
        exact absurd (lt_of_lt_of_le h1 h2) (lt_irrefl a)
  | b :: l, a, h => by
      rcases List.pairwise_cons.mp h with ⟨hhead, htail⟩
      have hab : a ≤ b := hhead b (List.mem_cons_self _ _)
      have hblast : b ≤ (b :: l).getLastD 0 := le_getLastD_of_pairwise l b htail
      have ih := windowPairs_cover x l b htail
      have hstep : (a :: b :: l).getLastD 0 = (b :: l).getLastD 0 := by
        simp [List.getLastD_cons]
      rw [hstep, windowPairs]
      constructor
      · rintro ⟨p, hp, hp1, hp2⟩
        rcases List.mem_cons.mp hp with hpe | hpm
        · subst hpe
          exact ⟨hp1, le_trans hp2 hblast⟩
        · rcases ih.mp ⟨p, hpm, hp1, hp2⟩ with ⟨hb, hl⟩
          exact ⟨lt_of_le_of_lt hab hb, hl⟩
      · rintro ⟨h1, h2⟩
        by_cases hxb : x ≤ b
        · exact ⟨(a, b), List.mem_cons_self _ _, h1, hxb⟩
        · rcases ih.mpr ⟨not_le.mp hxb, h2⟩ with ⟨p, hpm, hc⟩
          exact ⟨p, List.mem_cons_of_mem _ hpm, hc⟩

theorem windowPairs_ordered : ∀ l : List ℚ, l.Pairwise (· ≤ ·) →
    (windowPairs l).Pairwise (fun p q => p.2 ≤ q.1)
  | [], _ => List.Pairwise.nil
  | [_], _ => List.Pairwise.nil
  | a :: b :: rest, h => by
      rcases List.pairwise_cons.mp h with ⟨_, htail⟩
      rw [windowPairs]
      refine List.pairwise_cons.mpr ⟨?_, windowPairs_ordered (b :: rest) htail⟩
      intro q hq
      rcases mem_windowPairs (b :: rest) q hq with ⟨hq1, -⟩
      rcases List.mem_cons.mp hq1 with h1 | h1
      · exact le_of_eq h1.symm
      · exact (List.pairwise_cons.mp htail).1 q.1 h1

theorem mem_profileIdx (time : List ℚ) (p : ℚ × ℚ) (i : ℕ) :
    i ∈ profileIdx time p ↔
      i < time.length ∧ p.1 < time.getD i 0 ∧ time.getD i 0 ≤ p.2 := by
  simp [profileIdx, List.mem_filter, List.mem_range]

theorem flag_bound (ds : DepthDS) (hlen : ds.depth.length = ds.time.length) :
    ∀ i ∈ flatnonzeroGT 2 (absDiff ds.depth), i < ds.time.length - 1 := by
  intro i hi
  rcases (mem_flatnonzeroGT _ _ _).mp hi with ⟨h1, -⟩
  rw [absDiff_length, hlen] at h1
  exact h1

theorem inflectionTimes_pairwise (ds : DepthDS) (hn : 0 < ds.time.length)
    (hlen : ds.depth.length = ds.time.length) (hsorted : ds.time.Pairwise (· < ·)) :
    (inflectionTimes ds).Pairwise (· ≤ ·) := by
  have hbounds : ∀ y ∈ (flatnonzeroGT 2 (absDiff ds.depth)).map
      (fun i => ds.time.getD i 0),
      ds.time.getD 0 0 ≤ y ∧ y ≤ ds.time.getD (ds.time.length - 1) 0 := by
    intro y hy
    rcases List.mem_map.mp hy with ⟨i, hiflag, rfl⟩
    have hib := flag_bound ds hlen i hiflag
    exact ⟨time_getD_le ds.time hsorted (Nat.zero_le i) (by omega),
      time_getD_le ds.time hsorted (by omega) (by omega)⟩
  show (ds.time.getD 0 0 :: (_ ++ [ds.time.getD (ds.time.length - 1) 0])).Pairwise _
  refine List.pairwise_cons.mpr ⟨?_, ?_⟩
  · intro y hy
    rcases List.mem_append.mp hy with h | h
    · exact (hbounds y h).1
    · rw [List.mem_singleton.mp h]
      exact time_getD_le ds.time hsorted (Nat.zero_le _) (by omega)
  · refine List.pairwise_append.mpr ⟨?_, List.pairwise_singleton _ _, ?_⟩
    · refine List.pairwise_map.mpr ?_
      refine List.Pairwise.imp_of_mem ?_ (flatnonzeroGT_sorted 2 (absDiff ds.depth))
      intro a b ha hb hab
      have hbb := flag_bound ds hlen b hb
      exact le_of_lt (time_getD_lt ds.time hsorted hab (by omega))
    · intro a ha b hb
      rw [List.mem_singleton.mp hb]
      exact (hbounds a ha).2

theorem inflectionTimes_getLastD (ds : DepthDS) :
    (inflectionTimes ds).getLastD 0 = ds.time.getD (ds.time.length - 1) 0 := by
  show (ds.time.getD 0 0 :: (_ ++ [ds.time.getD (ds.time.length - 1) 0])).getLastD 0 = _
  rw [List.getLastD_cons, List.getLastD_concat]

theorem mem_identify_profiles_iff (ds : DepthDS) (i : ℕ) :
    (∃ s ∈ identify_profiles ds, i ∈ s) ↔
      ∃ p ∈ windowPairs (inflectionTimes ds), i ∈ profileIdx ds.time p := by
  constructor
  · rintro ⟨s, hs, his⟩
    rcases List.mem_filter.mp hs with ⟨hs_map, -⟩
    rcases List.mem_map.mp hs_map with ⟨p, hp, rfl⟩
    exact ⟨p, hp, his⟩
  · rintro ⟨p, hp, hip⟩
    refine ⟨profileIdx ds.time p, List.mem_filter.mpr ⟨List.mem_map_of_mem _ hp, ?_⟩, hip⟩
    rcases hq : profileIdx ds.time p with _ | ⟨q, qs⟩
    · rw [hq] at hip
      cases hip
    · rfl

/-- C6: for every dataset with a depth channel of matching length, at least
one sample and strictly increasing timestamps: a sample index belongs to
some returned profile exactly when its time lies in the half-open interval
(first bracket timestamp, last bracket timestamp]; the returned index sets
are pairwise disjoint; and profiles listed earlier (lower ids) contain only
samples strictly earlier in time than those of later profiles. -/
theorem identify_profiles_partition (ds : DepthDS) (hn : 0 < ds.time.length)
    (hlen : ds.depth.length = ds.time.length)
    (hsorted : ds.time.Pairwise (· < ·)) :
    (∀ i, (∃ s ∈ identify_profiles ds, i ∈ s) ↔
      (i < ds.time.length ∧ (inflectionTimes ds).headI < ds.time.getD i 0 ∧
        ds.time.getD i 0 ≤ (inflectionTimes ds).getLastD 0)) ∧
    (identify_profiles ds).Pairwise (fun s t => ∀ a ∈ s, a ∉ t) ∧
    (identify_profiles ds).Pairwise
      (fun s t => ∀ a ∈ s, ∀ b ∈ t, ds.time.getD a 0 < ds.time.getD b 0) := by
  have hBpair := inflectionTimes_pairwise ds hn hlen hsorted
  have hiii : (identify_profiles ds).Pairwise
      (fun s t => ∀ a ∈ s, ∀ b ∈ t, ds.time.getD a 0 < ds.time.getD b 0) := by
    have hord := windowPairs_ordered (inflectionTimes ds) hBpair
    have hmap : ((windowPairs (inflectionTimes ds)).map (profileIdx ds.time)).Pairwise
        (fun s t => ∀ a ∈ s, ∀ b ∈ t, ds.time.getD a 0 < ds.time.getD b 0) := by
      refine List.Pairwise.map _ ?_ hord
      intro p q hpq a ha b hb
      exact lt_of_le_of_lt (le_trans ((mem_profileIdx _ _ _).mp ha).2.2 hpq)
        ((mem_profileIdx _ _ _).mp hb).2.1
    exact List.Pairwise.sublist (List.filter_sublist _) hmap
  refine ⟨?_, ?_, hiii⟩
  · intro i
    rw [mem_identify_profiles_iff]
    have hlast9 : ((ds.time.getD 0 0 ::
        ((flatnonzeroGT 2 (absDiff ds.depth)).map (fun j => ds.time.getD j 0) ++
          [ds.time.getD (ds.time.length - 1) 0]))).getLastD 0 =
        ds.time.getD (ds.time.length - 1) 0 := by
      rw [List.getLastD_cons, List.getLastD_concat]
    have hcover := windowPairs_cover (ds.time.getD i 0)
      ((flatnonzeroGT 2 (absDiff ds.depth)).map (fun j => ds.time.getD j 0) ++
        [ds.time.getD (ds.time.length - 1) 0]) (ds.time.getD 0 0) hBpair
    rw [hlast9] at hcover
    have hhead : (inflectionTimes ds).headI = ds.time.getD 0 0 := rfl
    rw [hhead, inflectionTimes_getLastD]
    constructor
    · rintro ⟨p, hp, hip⟩
      rcases (mem_profileIdx _ _ _).mp hip with ⟨hin, h1, h2⟩
      exact ⟨hin, hcover.mp ⟨p, hp, h1, h2⟩⟩
    · rintro ⟨hin, h1, h2⟩
      rcases hcover.mpr ⟨h1, h2⟩ with ⟨p, hp, hc1, hc2⟩
      exact ⟨p, hp, (mem_profileIdx _ _ _).mpr ⟨hin, hc1, hc2⟩⟩
  · exact hiii.imp fun h a ha hat => absurd (h a ha a hat) (lt_irrefl _)

/-- Witness for C6 at the nine-sample example dataset. -/
theorem identify_profiles_partition_witness :
    (0 < ([0, 1, 2, 3, 4, 5, 6, 7, 8] : List ℚ).length) ∧
    ((∀ i, (∃ s ∈ identify_profiles
        ⟨[0, 1, 2, 3, 4, 5, 6, 7, 8], [1, 2, 3, 50, 49, 48, 3, 2, 1]⟩, i ∈ s) ↔
      (i < ([0, 1, 2, 3, 4, 5, 6, 7, 8] : List ℚ).length ∧
        (inflectionTimes
          ⟨[0, 1, 2, 3, 4, 5, 6, 7, 8], [1, 2, 3, 50, 49, 48, 3, 2, 1]⟩).headI <
          ([0, 1, 2, 3, 4, 5, 6, 7, 8] : List ℚ).getD i 0 ∧
        ([0, 1, 2, 3, 4, 5, 6, 7, 8] : List ℚ).getD i 0 ≤
          (inflectionTimes
            ⟨[0, 1, 2, 3, 4, 5, 6, 7, 8], [1, 2, 3, 50, 49, 48, 3, 2, 1]⟩).getLastD 0)) ∧
    (identify_profiles
      ⟨[0, 1, 2, 3, 4, 5, 6, 7, 8], [1, 2, 3, 50, 49, 48, 3, 2, 1]⟩).Pairwise
        (fun s t => ∀ a ∈ s, a ∉ t) ∧
    (identify_profiles
      ⟨[0, 1, 2, 3, 4, 5, 6, 7, 8], [1, 2, 3, 50, 49, 48, 3, 2, 1]⟩).Pairwise
        (fun s t => ∀ a ∈ s, ∀ b ∈ t,
          ([0, 1, 2, 3, 4, 5, 6, 7, 8] : List ℚ).getD a 0 <
            ([0, 1, 2, 3, 4, 5, 6, 7, 8] : List ℚ).getD b 0)) :=
  ⟨by decide, identify_profiles_partition
    ⟨[0, 1, 2, 3, 4, 5, 6, 7, 8], [1, 2, 3, 50, 49, 48, 3, 2, 1]⟩
    (by decide) (by decide) (by decide)⟩

theorem writeIds_getD_zero (arr : List ℕ) (pos : List ℕ) (v : ℕ) (h : 0 ∉ pos) :
    (writeIds arr pos v).getD 0 0 = arr.getD 0 0 := by
  cases arr with
  | nil => rfl
  | cons a l =>
      rw [writeIds, getD_range_map _ _ _ _ (by simp : 0 < (a :: l).length), if_neg h]

theorem foldl_writeIds_zero : ∀ (l : List (ℕ × List ℕ)) (arr : List ℕ),
    (∀ p ∈ l, 0 ∉ p.2) →
    (l.foldl (fun arr p => writeIds arr p.2 p.1) arr).getD 0 0 = arr.getD 0 0
  | [], arr, _ => rfl
  | q :: l, arr, h => by
      rw [List.foldl_cons,
        foldl_writeIds_zero l _ (fun p hp => h p (List.mem_cons_of_mem q hp)),
        writeIds_getD_zero _ _ _ (h q (List.mem_cons_self q l))]

theorem enum_snd_mem {α : Type} {l : List α} {p : ℕ × α} (h : p ∈ l.enum) :
    p.2 ∈ l :=
  List.getElem?_mem (List.mem_enum_iff_getElem?.mp h)

/-- C10: for every dataset with a depth channel, at least two samples and
strictly increasing timestamps, the first sample belongs to no returned
profile index set, and the per-sample id array starts with 0. -/
theorem first_sample_no_profile (ds : DepthDS) (hn : 2 ≤ ds.time.length)
    (hlen : ds.depth.length = ds.time.length)
    (hsorted : ds.time.Pairwise (· < ·)) :
    (∀ s ∈ identify_profiles ds, 0 ∉ s) ∧ (get_profile_ids ds).getD 0 0 = 0 := by
  have hnotin : ∀ s ∈ identify_profiles ds, 0 ∉ s := by
    intro s hs h0
    rcases List.mem_filter.mp hs with ⟨hsm, -⟩
    rcases List.mem_map.mp hsm with ⟨p, hp, rfl⟩
    rcases (mem_profileIdx _ _ _).mp h0 with ⟨-, h1, -⟩
    have hp1 := (mem_windowPairs _ _ hp).1
    have hBpair := inflectionTimes_pairwise ds (by omega) hlen hsorted
    rw [show inflectionTimes ds = ds.time.getD 0 0 ::
      ((flatnonzeroGT 2 (absDiff ds.depth)).map (fun j => ds.time.getD j 0) ++
        [ds.time.getD (ds.time.length - 1) 0]) from rfl] at hp1 hBpair
    have hge : ds.time.getD 0 0 ≤ p.1 := by
      rcases List.mem_cons.mp hp1 with h | h
      · exact le_of_eq h.symm
      · exact (List.pairwise_cons.mp hBpair).1 p.1 h
    exact absurd h1 (not_lt.mpr hge)
  refine ⟨hnotin, ?_⟩
  rw [get_profile_ids,
    foldl_writeIds_zero _ _ (fun p hp => hnotin p.2 (enum_snd_mem hp))]
  cases h : ds.time.length with
  | zero => rfl
  | succ m => rfl

/-- Witness for C10 at the nine-sample example dataset. -/
theorem first_sample_no_profile_witness :
    (∀ s ∈ identify_profiles
      ⟨[0, 1, 2, 3, 4, 5, 6, 7, 8], [1, 2, 3, 50, 49, 48, 3, 2, 1]⟩, 0 ∉ s) ∧
    (get_profile_ids
      ⟨[0, 1, 2, 3, 4, 5, 6, 7, 8], [1, 2, 3, 50, 49, 48, 3, 2, 1]⟩).getD 0 0 = 0 :=
  first_sample_no_profile
    ⟨[0, 1, 2, 3, 4, 5, 6, 7, 8], [1, 2, 3, 50, 49, 48, 3, 2, 1]⟩
    (by decide) (by decide) (by decide)

theorem scenario_flag :
    flatnonzeroGT 2 (absDiff [1, 2, 3, 50, 49, 48, 3, 2, 1]) = [2, 5] := by
  have h1 : absDiff [1, 2, 3, 50, 49, 48, 3, 2, 1] = [1, 1, 47, 1, 1, 45, 1, 1] := by
    norm_num [absDiff, ratAbs]
  rw [h1]
  decide

/-- C1 counterexample: on the depth signal `[1,2,3,50,49,48,3,2,1]` at
evenly spaced times `0..8`, `identify_profiles` does not return the two
sets `{1,2,3}` and `{4,5,6,7,8}` claimed (it returns three sets:
`{1,2}`, `{3,4,5}`, `{6,7,8}`). -/
theorem identify_profiles_scenarioA_ne :
    identify_profiles ⟨[0, 1, 2, 3, 4, 5, 6, 7, 8], [1, 2, 3, 50, 49, 48, 3, 2, 1]⟩ ≠
      [[1, 2, 3], [4, 5, 6, 7, 8]] := by
  unfold identify_profiles inflectionTimes
  rw [scenario_flag]
  decide

theorem profileIdx_rangeMap (f : ℕ → ℚ) (n : ℕ) (a b : ℚ) :
    profileIdx ((List.range n).map f) (a, b) =
      (List.range n).filter fun i => decide (a < f i ∧ f i ≤ b) := by
  unfold profileIdx
  rw [List.length_map, List.length_range]
  apply List.filter_congr
  intro i hi
  rw [getD_range_map _ _ _ _ (List.mem_range.mp hi)]

theorem evenly_cond (t0 d : ℚ) (hd : 0 < d) (a b i : ℕ) :
    (t0 + (a : ℚ) * d < t0 + (i : ℚ) * d ∧ t0 + (i : ℚ) * d ≤ t0 + (b : ℚ) * d) ↔
      (a < i ∧ i ≤ b) := by
  constructor
  · rintro ⟨h1, h2⟩
    constructor
    · exact_mod_cast (mul_lt_mul_right hd).mp (lt_of_add_lt_add_left h1)
    · exact_mod_cast (mul_le_mul_right hd).mp (le_of_add_le_add_left h2)
  · rintro ⟨h1, h2⟩
    constructor
    · exact add_lt_add_left ((mul_lt_mul_right hd).mpr (by exact_mod_cast h1)) t0
    · exact add_le_add_left ((mul_le_mul_right hd).mpr (by exact_mod_cast h2)) t0

/-- C1 (amended): on the depth signal `[1,2,3,50,49,48,3,2,1]` at nine
evenly spaced, strictly increasing timestamps, exactly two depth steps are
flagged as inflection points (the steps from index 2 to 3 and from index 5
to 6), and the returned ordered sequence of profile index sets is the
*three* sets `{1,2}`, `{3,4,5}`, `{6,7,8}` (the recorded inflection times
are the steps' earlier endpoints `t2` and `t5`). -/
theorem identify_profiles_scenarioA (t0 d : ℚ) (hd : 0 < d) :
    flatnonzeroGT 2 (absDiff [1, 2, 3, 50, 49, 48, 3, 2, 1]) = [2, 5] ∧
    identify_profiles ⟨(List.range 9).map (fun i : ℕ => t0 + (i : ℚ) * d),
      [1, 2, 3, 50, 49, 48, 3, 2, 1]⟩ = [[1, 2], [3, 4, 5], [6, 7, 8]] := by
  refine ⟨scenario_flag, ?_⟩
  have hkey : ∀ a b : ℕ,
      profileIdx ((List.range 9).map (fun i : ℕ => t0 + (i : ℚ) * d))
        (t0 + (a : ℚ) * d, t0 + (b : ℚ) * d) =
      (List.range 9).filter (fun i => decide (a < i ∧ i ≤ b)) := by
    intro a b
    rw [profileIdx_rangeMap]
    apply List.filter_congr
    intro i _
    exact decide_eq_decide.mpr (evenly_cond t0 d hd a b i)
  have e0 := getD_range_map (fun i : ℕ => t0 + (i : ℚ) * d) 9 0 0 (by norm_num)
  have e2 := getD_range_map (fun i : ℕ => t0 + (i : ℚ) * d) 9 2 0 (by norm_num)
  have e5 := getD_range_map (fun i : ℕ => t0 + (i : ℚ) * d) 9 5 0 (by norm_num)
  have e8 := getD_range_map (fun i : ℕ => t0 + (i : ℚ) * d) 9 8 0 (by norm_num)
  have hB : inflectionTimes ⟨(List.range 9).map (fun i : ℕ => t0 + (i : ℚ) * d),
      [1, 2, 3, 50, 49, 48, 3, 2, 1]⟩ =
      [t0 + ((0 : ℕ) : ℚ) * d, t0 + ((2 : ℕ) : ℚ) * d,
       t0 + ((5 : ℕ) : ℚ) * d, t0 + ((8 : ℕ) : ℚ) * d] := by
    unfold inflectionTimes
    rw [scenario_flag]
    simp only [List.map_cons, List.map_nil, List.length_map, List.length_range]
    rw [show (9 - 1 : ℕ) = 8 from rfl, e0, e2, e5, e8]
    rfl
  unfold identify_profiles
  rw [hB]
  rw [show windowPairs [t0 + ((0 : ℕ) : ℚ) * d, t0 + ((2 : ℕ) : ℚ) * d,
      t0 + ((5 : ℕ) : ℚ) * d, t0 + ((8 : ℕ) : ℚ) * d] =
    [(t0 + ((0 : ℕ) : ℚ) * d, t0 + ((2 : ℕ) : ℚ) * d),
     (t0 + ((2 : ℕ) : ℚ) * d, t0 + ((5 : ℕ) : ℚ) * d),
     (t0 + ((5 : ℕ) : ℚ) * d, t0 + ((8 : ℕ) : ℚ) * d)] from rfl]
  simp only [List.map_cons, List.map_nil]
  rw [hkey 0 2, hkey 2 5, hkey 5 8]
  decide

/-- Witness for the amended C1 at `t0 = 0`, `d = 1`. -/
theorem identify_profiles_scenarioA_witness :
    (0 : ℚ) < 1 ∧
    (flatnonzeroGT 2 (absDiff [1, 2, 3, 50, 49, 48, 3, 2, 1]) = [2, 5] ∧
    identify_profiles ⟨(List.range 9).map (fun i : ℕ => (0 : ℚ) + (i : ℚ) * 1),
      [1, 2, 3, 50, 49, 48, 3, 2, 1]⟩ = [[1, 2], [3, 4, 5], [6, 7, 8]]) :=
  ⟨by norm_num, identify_profiles_scenarioA 0 1 (by norm_num)⟩

/-! ## Lemmas about the sensor classifier (claim C5) -/

theorem mem_sensor_variables (gdac : List GVar) (g : SensorGroup) (x : String) :
    x ∈ sensor_variables gdac g ↔
      ∃ v ∈ gdac, classifyVar v = some g ∧ v.name = x := by
  simp only [sensor_variables, List.mem_map, List.mem_filter, decide_eq_true_eq]
  constructor
  · rintro ⟨v, ⟨hv, hc⟩, hn⟩
    exact ⟨v, hv, hc, hn⟩
  · rintro ⟨v, hv, hc, hn⟩
    exact ⟨v, ⟨hv, hc⟩, hn⟩

theorem classifyVar_isSome_of (v : GVar)
    (h : (recognizedInstrument v = true ∧ v.name ≠ "platform_meta") ∨
      (v.sourceSensor = true ∧ v.instrument = none)) :
    ∃ g, classifyVar v = some g := by
  unfold classifyVar
  by_cases hd : v.dim0 = "profile"
  · exact ⟨.profile, by rw [if_pos hd]⟩
  · rw [if_neg hd]
    rcases h with ⟨hrec, hpm⟩ | ⟨hss, hnone⟩
    · unfold recognizedInstrument at hrec
      cases hin : v.instrument with
      | none =>
          rw [hin] at hrec
          cases hrec
      | some instr =>
          rw [hin] at hrec
          simp only [hin]
          rw [if_neg hpm]
          by_cases h1 : strContains instr "ctd" = true
          · exact ⟨.ctd, by rw [if_pos h1]⟩
          by_cases h2 : strContains instr "oxy" = true
          · exact ⟨.oxy, by rw [if_neg h1, if_pos h2]⟩
          by_cases h3 : strContains instr "par" = true
          · exact ⟨.par, by rw [if_neg h1, if_neg h2, if_pos h3]⟩
          by_cases h4 : strContains instr "flbbcd" = true
          · exact ⟨.flbbcd, by rw [if_neg h1, if_neg h2, if_neg h3, if_pos h4]⟩
          exfalso
          simp only [Bool.not_eq_true] at h1 h2 h3 h4
          simp only [h1, h2, h3, h4, Bool.or_self, Bool.or_false] at hrec
          cases hrec
    · simp only [hnone]
      exact ⟨.glider, by rw [if_pos hss]⟩

/-- C5 (amended): the six groups of the sensor classifier are pairwise
disjoint, their union is a subset of the dataset's channel names, and every
channel carrying a recognized instrument annotation — other than the
`platform_meta` sentinel — and every channel carrying a source-sensor
annotation and no instrument annotation appears in exactly one group
(channel names assumed unique, as they are for a dataset's variables). -/
theorem sensor_variables_partition (gdac : List GVar)
    (hnodup : (gdac.map (fun v => v.name)).Nodup) :
    (∀ g g', g ≠ g' → ∀ x, x ∈ sensor_variables gdac g →
      x ∉ sensor_variables gdac g') ∧
    (∀ g x, x ∈ sensor_variables gdac g → x ∈ gdac.map (fun v => v.name)) ∧
    (∀ v ∈ gdac,
      ((recognizedInstrument v = true ∧ v.name ≠ "platform_meta") ∨
        (v.sourceSensor = true ∧ v.instrument = none)) →
      ∃! g, v.name ∈ sensor_variables gdac g) := by
  have hinj := List.inj_on_of_nodup_map hnodup
  refine ⟨?_, ?_, ?_⟩
  · intro g g' hne x hx hx'
    rcases (mem_sensor_variables gdac g x).mp hx with ⟨v, hv, hc, hn⟩
    rcases (mem_sensor_variables gdac g' x).mp hx' with ⟨v', hv', hc', hn'⟩
    have heq : v = v' := hinj hv hv' (by rw [hn, hn'])
    rw [heq, hc'] at hc
    exact hne (Option.some.inj hc).symm
  · intro g x hx
    rcases (mem_sensor_variables gdac g x).mp hx with ⟨v, hv, -, hn⟩
    exact hn ▸ List.mem_map_of_mem _ hv
  · intro v hv hcond
    rcases classifyVar_isSome_of v hcond with ⟨g, hg⟩
    refine ⟨g, (mem_sensor_variables gdac g v.name).mpr ⟨v, hv, hg, rfl⟩, ?_⟩
    intro g' hg'
    rcases (mem_sensor_variables gdac g' v.name).mp hg' with ⟨v', hv', hc', hn'⟩
    have heq : v' = v := hinj hv' hv hn'
    rw [heq, hg] at hc'
    exact (Option.some.inj hc').symm

/-- C5 counterexample: a channel literally named `platform_meta` carrying
the recognized instrument annotation "ctd" appears in none of the six
groups, not in exactly one. -/
theorem sensor_variables_platform_meta_skipped :
    recognizedInstrument ⟨"platform_meta", "time", some "ctd", false⟩ = true ∧
    sensor_variables [⟨"platform_meta", "time", some "ctd", false⟩] .ctd = [] ∧
    sensor_variables [⟨"platform_meta", "time", some "ctd", false⟩] .oxy = [] ∧
    sensor_variables [⟨"platform_meta", "time", some "ctd", false⟩] .flbbcd = [] ∧
    sensor_variables [⟨"platform_meta", "time", some "ctd", false⟩] .par = [] ∧
    sensor_variables [⟨"platform_meta", "time", some "ctd", false⟩] .glider = [] ∧
    sensor_variables [⟨"platform_meta", "time", some "ctd", false⟩] .profile = [] := by
  refine ⟨?_, ?_, ?_, ?_, ?_, ?_, ?_⟩ <;> decide

/-- Witness for the amended C5 at a three-variable dataset. -/
theorem sensor_variables_partition_witness :
    ((([⟨"temp", "time", some "glider ctd", false⟩, ⟨"pitch", "time", none, true⟩,
        ⟨"nprof", "profile", none, false⟩] : List GVar).map (fun v => v.name)).Nodup) ∧
    ((∀ g g', g ≠ g' → ∀ x, x ∈ sensor_variables
        [⟨"temp", "time", some "glider ctd", false⟩, ⟨"pitch", "time", none, true⟩,
          ⟨"nprof", "profile", none, false⟩] g →
      x ∉ sensor_variables
        [⟨"temp", "time", some "glider ctd", false⟩, ⟨"pitch", "time", none, true⟩,
          ⟨"nprof", "profile", none, false⟩] g') ∧
    (∀ g x, x ∈ sensor_variables
        [⟨"temp", "time", some "glider ctd", false⟩, ⟨"pitch", "time", none, true⟩,
          ⟨"nprof", "profile", none, false⟩] g →
      x ∈ ([⟨"temp", "time", some "glider ctd", false⟩, ⟨"pitch", "time", none, true⟩,
          ⟨"nprof", "profile", none, false⟩] : List GVar).map (fun v => v.name)) ∧
    (∀ v ∈ ([⟨"temp", "time", some "glider ctd", false⟩, ⟨"pitch", "time", none, true⟩,
          ⟨"nprof", "profile", none, false⟩] : List GVar),
      ((recognizedInstrument v = true ∧ v.name ≠ "platform_meta") ∨
        (v.sourceSensor = true ∧ v.instrument = none)) →
      ∃! g, v.name ∈ sensor_variables
        [⟨"temp", "time", some "glider ctd", false⟩, ⟨"pitch", "time", none, true⟩,
          ⟨"nprof", "profile", none, false⟩] g)) :=
  ⟨by decide, sensor_variables_partition _ (by decide)⟩

/-! ## The rename step of `merge_datasets` (claim C8) -/

/-- C8: every non-coordinate channel of a group's sub-dataset is renamed to
the group label joined to the original name by an underscore, and when two
distinct groups both contain a channel of the same raw name, the merged
dataset contains the two distinctly named renamed channels. -/
theorem merge_rename_no_collision (dvlVars : List String)
    (groups : List (String × SubDS)) (l1 l2 : String) (sd1 sd2 : SubDS)
    (v : String) (hg1 : (l1, sd1) ∈ groups) (hg2 : (l2, sd2) ∈ groups)
    (hne : l1 ≠ l2) (hv1 : v ∈ sd1.vars) (hv2 : v ∈ sd2.vars)
    (hc1 : v ∉ sd1.coords) (hc2 : v ∉ sd2.coords) :
    (l1 ++ "_" ++ v) ∈ mergedNames dvlVars groups ∧
    (l2 ++ "_" ++ v) ∈ mergedNames dvlVars groups ∧
    (l1 ++ "_" ++ v) ≠ (l2 ++ "_" ++ v) := by
  have hmem : ∀ (l : String) (sd : SubDS), (l, sd) ∈ groups → v ∈ sd.vars →
      v ∉ sd.coords → (l ++ "_" ++ v) ∈ mergedNames dvlVars groups := by
    intro l sd hg hv hc
    refine List.mem_append_right _ (List.mem_flatten.mpr
      ⟨(rename_vars l sd).vars, List.mem_map_of_mem _ hg, ?_⟩)
    have : (l ++ "_" ++ v) = (fun v => if v ∈ sd.coords then v else l ++ "_" ++ v) v := by
      simp only [if_neg hc]
    rw [this]
    exact List.mem_map_of_mem _ hv
  refine ⟨hmem l1 sd1 hg1 hv1 hc1, hmem l2 sd2 hg2 hv2 hc2, ?_⟩
  intro heq
  apply hne
  apply String.ext
  have hd := congrArg String.data heq
  simp only [String.data_append, List.append_assoc] at hd
  exact List.append_cancel_right hd

/-- Witness for C8: two groups labelled "ctd" and "oxy" sharing the raw
channel name "temperature". -/
theorem merge_rename_no_collision_witness :
    ("ctd" ++ "_" ++ "temperature") ∈
      mergedNames [] [("ctd", ⟨["temperature"], []⟩), ("oxy", ⟨["temperature"], []⟩)] ∧
    ("oxy" ++ "_" ++ "temperature") ∈
      mergedNames [] [("ctd", ⟨["temperature"], []⟩), ("oxy", ⟨["temperature"], []⟩)] ∧
    ("ctd" ++ "_" ++ "temperature") ≠ ("oxy" ++ "_" ++ "temperature") :=
  merge_rename_no_collision [] _ "ctd" "oxy" ⟨["temperature"], []⟩ ⟨["temperature"], []⟩
    "temperature" (by decide) (by decide) (by decide) (by decide) (by decide)
    (by decide) (by decide)

end GliderDVL
